import Mathlib

/-!
Shallow embedding of the static file HTTP server in `src/server.js`
(class `StaticServer`).  JavaScript strings are modelled as `List Char`,
JavaScript numbers appearing in the range parser as `Option Int`
(`none` models `NaN`; every comparison with `NaN` is false in JS).
Fallible code (a thrown `TypeError` / `ReferenceError` / stream-option
validation error) is modelled with `Except Unit`.
-/

abbrev Str := List Char

/-- JS truthiness of `undefined`-or-string values: `undefined` and the
empty string are falsy, every other string is truthy. -/
def jsTruthy : Option Str → Bool
  | none => false
  | some s => !s.isEmpty

/-- Decimal value of a digit string (the behaviour of JS `parseInt` on the
strings captured by `([0-9]*)`, which consist of decimal digits only). -/
def digitsVal (l : Str) : Nat :=
  l.foldl (fun a c => a * 10 + (c.toNat - 48)) 0

/-- JS `parseInt` restricted to the capture groups of `([0-9]*)`:
the empty string parses to `NaN` (`none`), otherwise to its decimal value. -/
def parseIntJs (l : Str) : Option Int :=
  if l.isEmpty then none else some (digitsVal l : Int)

/-- JS `>` where either side may be `NaN` (`none`): any comparison
involving `NaN` is false. -/
def jsGt : Option Int → Option Int → Bool
  | some a, some b => a > b
  | _, _ => false

/-- JS number rendering as used by template interpolation: `NaN` prints
as `"NaN"`, integers print in decimal (negative with a leading minus). -/
def numStr : Option Int → Str
  | none => "NaN".data
  | some i => (toString i).data

/-- Decimal rendering of a plain integer (template interpolation of
`totalSize`). -/
def intStr (i : Int) : Str := (toString i).data

/-- One attempt of the regex `/bytes=([0-9]*)-([0-9]*)/` at the current
position: the literal `bytes=`, a maximal run of digits (group 1), the
literal `-`, a maximal run of digits (group 2).  Digits and `-` are
disjoint character classes, so the greedy runs need no backtracking. -/
def matchBytesAt (l : Str) : Option (Str × Str) :=
  if "bytes=".data.isPrefixOf l then
    let r := l.drop 6
    let d1 := r.takeWhile Char.isDigit
    match r.dropWhile Char.isDigit with
    | '-' :: r2 => some (d1, r2.takeWhile Char.isDigit)
    | _ => none
  else none

/-- `String.prototype.match` with `/bytes=([0-9]*)-([0-9]*)/`: the
leftmost position at which the pattern matches, returning the two capture
groups, or `none` when the pattern occurs nowhere in the string. -/
def findBytesMatch : Str → Option (Str × Str)
  | [] => matchBytesAt []
  | l@(_ :: t) => (matchBytesAt l).orElse fun _ => findBytesMatch t

/-- The `{start, end}` object produced by `getRange` in `src/server.js`;
either field may be `NaN` (`none`). -/
structure JsRange where
  start : Option Int
  end_ : Option Int
deriving DecidableEq, Repr

/-- `getRange(rangeText, totalSize)` (src/server.js lines 126-140).
When the regex does not match, `matchResults` is `null` and the access
`matchResults[1]` throws a `TypeError`, modelled as `Except.error`. -/
def getRange (rangeText : Str) (totalSize : Int) : Except Unit JsRange :=
  match findBytesMatch rangeText with
  | none => .error ()
  | some (g1, g2) =>
    match parseIntJs g1, parseIntJs g2 with
    | none, some e => .ok ⟨some (totalSize - e), some (totalSize - 1)⟩
    | some s, none => .ok ⟨some s, some (totalSize - 1)⟩
    | s, e => .ok ⟨s, e⟩

/-- The decision taken by `rangeHandler` (src/server.js lines 143-156)
once the range is parsed: the status code it assigns, the
`Content-Range` header it sets, and the `{start, end}` options it passes
to `fs.createReadStream` (`none` models the early `return null` of the
416 branch, where no stream is opened). -/
structure RangeDecision where
  statusCode : Nat
  contentRange : Str
  streamRequest : Option (Option Int × Option Int)
deriving DecidableEq, Repr

/-- The validation and response-header part of `rangeHandler`
(src/server.js lines 145-155), applied to an already parsed range. -/
def checkRange (range : JsRange) (totalSize : Int) : RangeDecision :=
  if jsGt range.start (some totalSize) || jsGt range.end_ (some totalSize)
      || jsGt range.start range.end_ then
    ⟨416, "bytes */".data ++ intStr totalSize, none⟩
  else
    ⟨206,
      "bytes ".data ++ numStr range.start ++ "-".data ++ numStr range.end_
        ++ "/".data ++ intStr totalSize,
      some (range.start, range.end_)⟩

/-- `rangeHandler` = parse (`getRange`), then validate and stage the
response (`checkRange`); a `TypeError` thrown by `getRange` propagates. -/
def rangeDecision (rangeText : Str) (totalSize : Int) : Except Unit RangeDecision :=
  (getRange rangeText totalSize).map fun r => checkRange r totalSize

/-- `fs.createReadStream(pathName, { start, end })` applied to a file
whose bytes are `content`: the option validator rejects a negative or
non-numeric (`NaN`) offset with a thrown error; otherwise the stream
yields the bytes from `start` to `end` inclusive, clamped at the end of
the file (a start at or past EOF yields an empty stream). -/
def createReadStreamOpts (content : List Nat) : Option Int × Option Int → Except Unit (List Nat)
  | (some s, some e) =>
    if s < 0 || e < 0 then .error ()
    else .ok ((content.take (e.toNat + 1)).drop s.toNat)
  | _ => .error ()

instance {e a : Type} [DecidableEq e] [DecidableEq a] : DecidableEq (Except e a)
  | .error x, .error y =>
    if h : x = y then .isTrue (by rw [h]) else .isFalse (by intro c; cases c; exact h rfl)
  | .error _, .ok _ => .isFalse (by intro c; cases c)
  | .ok _, .error _ => .isFalse (by intro c; cases c)
  | .ok x, .ok y =>
    if h : x = y then .isTrue (by rw [h]) else .isFalse (by intro c; cases c; exact h rfl)

/-- The request headers the server consults (`req.headers`), each either
absent (`none`) or present with a string value (which may be empty:
Node lowercases header names and represents an empty header value as
the empty string, which is falsy in JS). -/
structure ReqHeaders where
  ifNoneMatch : Option Str
  ifModifiedSince : Option Str
  range : Option Str
  acceptEncoding : Option Str
deriving DecidableEq, Repr

/-- The caching response headers staged by `setFreshHeaders`
(read back by `isFresh` through `res._headers`, whose keys Node stores
lowercased). -/
structure ResHeaders where
  expires : Option Str
  cacheControl : Option Str
  lastModified : Option Str
  etag : Option Str
deriving DecidableEq, Repr

/-- The configuration fields the constructor copies from `config.json`:
the four cache feature flags, `maxAge`, and the index page name. -/
structure Config where
  cacheControl : Bool
  expires : Bool
  etag : Bool
  lastModified : Bool
  maxAge : Int
  indexPage : Str
deriving DecidableEq, Repr

/-- Per-request filesystem metadata (`fs.Stats`): byte size, modification
time in milliseconds since the epoch, and the directory flag. -/
structure StatInfo where
  size : Int
  mtimeMs : Int
  isDir : Bool
deriving DecidableEq, Repr

/-- Model of `Date.prototype.toUTCString()` as an injective renderer of
the millisecond timestamp.  Every claim uses the produced text only via
string equality, so the exact RFC-1123 surface form is irrelevant; what
matters is that it is a deterministic function of the timestamp. -/
def toUTCString (ms : Int) : Str :=
  "[UTC ".data ++ intStr ms ++ "]".data

/-- JS `Number.prototype.toString(16)`: lowercase hexadecimal, with a
leading minus sign for negative values. -/
def hexStr (i : Int) : Str :=
  if i < 0 then '-' :: Nat.toDigits 16 i.natAbs else Nat.toDigits 16 i.natAbs

/-- `generateETag(stat)` (src/server.js lines 39-43): the weak tag
`W/"<size-hex>-<mtime-hex>"`. -/
def generateETag (stat : StatInfo) : Str :=
  "W/\"".data ++ hexStr stat.size ++ "-".data ++ hexStr stat.mtimeMs ++ "\"".data

/-- `setFreshHeaders(stat, res)` (src/server.js lines 46-70): stages the
subset of {Expires, Cache-Control, Last-Modified, ETag} enabled by the
config flags; `now` is `Date.now()` at the moment of the call. -/
def setFreshHeaders (cfg : Config) (stat : StatInfo) (now : Int) : ResHeaders where
  expires := if cfg.expires then some (toUTCString (now + cfg.maxAge * 1000)) else none
  cacheControl :=
    if cfg.cacheControl then some ("public, max-age=".data ++ intStr cfg.maxAge) else none
  lastModified := if cfg.lastModified then some (toUTCString stat.mtimeMs) else none
  etag := if cfg.etag then some (generateETag stat) else none

/-- JS strict equality `v !== resHeaders[k]` (negated) between a present
request-header string and a response-header slot that may be `undefined`:
a string is never strictly equal to `undefined`. -/
def strictEqS (v : Str) : Option Str → Bool
  | some w => v == w
  | none => false

/-- `isFresh(reqHeaders, resHeaders)` (src/server.js lines 73-80).
Note the JS truthiness tests: a header present with the empty string
value behaves as if absent. -/
def isFresh (reqH : ReqHeaders) (resH : ResHeaders) : Bool :=
  let noneMatch := reqH.ifNoneMatch
  let lastModified := reqH.ifModifiedSince
  if !(jsTruthy noneMatch || jsTruthy lastModified) then false
  else if jsTruthy noneMatch && !(strictEqS (noneMatch.getD []) resH.etag) then false
  else if jsTruthy lastModified && !(strictEqS (lastModified.getD []) resH.lastModified) then false
  else true

/-- The compression transform applied to the response stream. -/
inductive Encoding where
  | identity
  | gzip
  | deflate
deriving DecidableEq, Repr

/-- A readable stream value: the underlying file bytes together with the
transform the stream has been piped through.  (`zlib` transforms are kept
abstract: piping tags the stream, preserving the source bytes, which is
exactly the "decodes back to the original bytes" guarantee.) -/
structure RStream where
  bytes : List Nat
  enc : Encoding
deriving DecidableEq, Repr

/-- Word characters in the sense of the regex metacharacter b
(word boundary): `[A-Za-z0-9_]`. -/
def isWordChar (c : Char) : Bool := c.isAlphanum || c == '_'

/-- Does the token (a word-character string such as `gzip` or `deflate`)
occur at the head of `l`, with a word boundary on each side?  `prev` is
the character just before this position (`none` at the start). -/
def tokenHereOk (tok : Str) (prev : Option Char) (l : Str) : Bool :=
  (match prev with
   | none => true
   | some c => !isWordChar c)
  && tok.isPrefixOf l
  && (match l.drop tok.length with
      | [] => true
      | c :: _ => !isWordChar c)

def hasWordTokenAux (tok : Str) (prev : Option Char) : Str → Bool
  | [] => tokenHereOk tok prev []
  | l@(c :: r) => tokenHereOk tok prev l || hasWordTokenAux tok (some c) r

/-- `s.match(/\btok\b/) !== null` for a word-character token `tok`:
the token occurs somewhere in `s` delimited by word boundaries.
(`/\b(gzip|deflate)\b/` tests as the disjunction of the two tokens.) -/
def hasWordToken (tok l : Str) : Bool := hasWordTokenAux tok none l

/-- `compressHandler(readStream, req, res)` (src/server.js lines 112-123):
returns the (possibly piped) stream together with the `Content-Encoding`
header it sets.  The result is `none` exactly when the JS function falls
off the end of its `if`/`else if` chain returning `undefined` (provably
unreachable: the first guard already ensures one of the tokens occurs). -/
def compressHandler (readStream : RStream) (acceptEncoding : Option Str) :
    Option (RStream × Option Str) :=
  let ae := acceptEncoding.getD []
  if !(jsTruthy acceptEncoding)
      || !(hasWordToken "gzip".data ae || hasWordToken "deflate".data ae) then
    some (readStream, none)
  else if hasWordToken "gzip".data ae then
    some (⟨readStream.bytes, .gzip⟩, some "gzip".data)
  else if hasWordToken "deflate".data ae then
    some (⟨readStream.bytes, .deflate⟩, some "deflate".data)
  else none

/-- `path.extname` (posix): the extension of the final path segment,
from its last `.` to the end; a dot that begins the segment does not
start an extension, and a segment without a dot has none. -/
def extname (p : Str) : Str :=
  let revBase := p.reverse.takeWhile (fun c => c ≠ '/')
  if revBase.contains '.' then
    let afterDotRev := revBase.takeWhile (fun c => c ≠ '.')
    if afterDotRev.length + 1 == revBase.length then []
    else '.' :: afterDotRev.reverse
  else []

/-- `shouldCompress(pathName)` (src/server.js lines 83-85):
`path.extname(pathName).match(this.zipMatch)`.  `this.zipMatch` is never
assigned anywhere in the class (the constructor copies only port, root,
indexPage, the four cache flags and maxAge), so it is `undefined`;
`str.match(undefined)` coerces the pattern via `new RegExp(undefined)` to
the empty pattern, which matches the empty substring in every string.
The test is therefore truthy for every path. -/
def shouldCompress (pathName : Str) : Bool :=
  (extname pathName).tails.any fun t => ([] : Str).isPrefixOf t

/-- The default of the external MIME collaborator
(`mime.lookup`, an external pure function per the system boundary). -/
def mimeDefault (_p : Str) : Str := "application/octet-stream".data

/-- The response as assembled by `responseFile` and its callees: status
code, the headers it sets, and the piped body. -/
structure FileResponse where
  statusCode : Nat
  contentType : Str
  acceptRanges : Str
  contentRange : Option Str
  contentEncoding : Option Str
  body : List Nat
  bodyEncoding : Encoding
deriving DecidableEq, Repr

/-- The tail of `responseFile`: pipe the chosen stream through
`compressHandler` when `shouldCompress` holds, then into the response. -/
def serveStream (ct : Str) (status : Nat) (cr : Option Str) (stream : RStream)
    (pathName : Str) (acceptEncoding : Option Str) : Except Unit FileResponse :=
  if shouldCompress pathName then
    match compressHandler stream acceptEncoding with
    | some (s, ce) => .ok ⟨status, ct, "bytes".data, cr, ce, s.bytes, s.enc⟩
    | none => .error ()
  else
    .ok ⟨status, ct, "bytes".data, cr, none, stream.bytes, stream.enc⟩

/-- `responseFile(stat, pathName, req, res)` (src/server.js lines
159-178).  `content` is the byte content of the file at `pathName`;
range arithmetic uses `stat.size` exactly as the source does.  A thrown
error (`TypeError` from `getRange` on an unmatched Range header, or the
stream-option validation error on a negative offset) is `Except.error`. -/
def responseFile (mimeOf : Str → Str) (stat : StatInfo) (content : List Nat)
    (pathName : Str) (reqH : ReqHeaders) : Except Unit FileResponse :=
  let ct := mimeOf pathName
  if jsTruthy reqH.range then
    match rangeDecision (reqH.range.getD []) stat.size with
    | .error _ => .error ()
    | .ok rd =>
      match rd.streamRequest with
      | none => .ok ⟨rd.statusCode, ct, "bytes".data, some rd.contentRange, none, [], .identity⟩
      | some opts =>
        match createReadStreamOpts content opts with
        | .error _ => .error ()
        | .ok bytes =>
          serveStream ct rd.statusCode (some rd.contentRange) ⟨bytes, .identity⟩
            pathName reqH.acceptEncoding
  else
    serveStream ct 200 none ⟨content, .identity⟩ pathName reqH.acceptEncoding

/-- The outcome of `respond(pathName, req, res)` (src/server.js lines
88-103) once `fs.stat` has completed. -/
inductive RespondResult where
  /-- `fs.stat` failed: the callback runs `respondError(err, res)`, but
  `respondError` is a method and no plain binding of that name is in
  scope, so evaluating the identifier throws a `ReferenceError` and no
  response is written. -/
  | threwRef
  /-- Fresh: status 304, `res.end()` with empty body, the staged caching
  headers already set. -/
  | notModified (headers : ResHeaders)
  /-- Not fresh: proceed to `responseFile` with the staged headers set. -/
  | served (headers : ResHeaders) (file : Except Unit FileResponse)
deriving DecidableEq, Repr

/-- `respond` (src/server.js lines 88-103): stage the caching headers,
test freshness against them, then either 304 or content streaming. -/
def respond (cfg : Config) (mimeOf : Str → Str) (statResult : Option StatInfo)
    (content : List Nat) (pathName : Str) (now : Int) (reqH : ReqHeaders) :
    RespondResult :=
  match statResult with
  | none => .threwRef
  | some stat =>
    let resH := setFreshHeaders cfg stat now
    if isFresh reqH resH then .notModified resH
    else .served resH (responseFile mimeOf stat content pathName reqH)

/-- Split a string at every `/` (the segment view of a posix path);
always returns at least one (possibly empty) segment. -/
def splitSlash : Str → List Str
  | [] => [[]]
  | c :: r =>
    if c = '/' then [] :: splitSlash r
    else
      match splitSlash r with
      | s :: ss => (c :: s) :: ss
      | [] => [[c]]

/-- Join segments with `/` (inverse of `splitSlash` on slash-free
nonempty segments). -/
def interS : List Str → Str
  | [] => []
  | [s] => s
  | s :: r => s ++ '/' :: interS r

/-- An ordinary path segment: nonempty, not `.`, not `..`, slash-free. -/
def cleanSeg (s : Str) : Bool :=
  !s.isEmpty && s != ['.'] && s != ['.', '.'] && !s.contains '/'

/-- The core of Node's posix `normalizeString`: process segments left to
right over a stack (kept reversed, head = innermost segment).  Empty and
`.` segments are dropped; `..` pops an ordinary segment, and above the
top it is kept only when `allow` is set (relative paths keep leading
`..`s, absolute paths clamp them at the root). -/
def resolveRev (allow : Bool) (stack : List Str) : List Str → List Str
  | [] => stack
  | s :: rest =>
    if s.isEmpty || s == ['.'] then resolveRev allow stack rest
    else if s == ['.', '.'] then
      match stack with
      | t :: ts =>
        if t == ['.', '.'] then resolveRev allow (s :: t :: ts) rest
        else resolveRev allow ts rest
      | [] => if allow then resolveRev allow [s] rest else resolveRev allow [] rest
    else resolveRev allow (s :: stack) rest

/-- Node's posix `path.normalize`: resolve `.`/`..`, collapse repeated
slashes, preserve absoluteness and a trailing slash. -/
def normalizeJs (p : Str) : Str :=
  if p.isEmpty then ['.']
  else
    let isAbs := p.head? == some '/'
    let trailing := p.getLast? == some '/'
    let segs := (resolveRev (!isAbs) [] (splitSlash p)).reverse
    let body := interS segs
    if body.isEmpty then
      if isAbs then ['/'] else if trailing then ['.', '/'] else ['.']
    else
      (if isAbs then '/' :: body else body) ++ (if trailing then ['/'] else [])

/-- Node's posix `path.join` on two arguments: concatenate the nonempty
arguments with `/` and normalize (`.` when both are empty). -/
def joinJs (a b : Str) : Str :=
  if a.isEmpty && b.isEmpty then ['.']
  else if a.isEmpty then normalizeJs b
  else if b.isEmpty then normalizeJs a
  else normalizeJs (a ++ '/' :: b)

/-- The path resolution of `start()` (src/server.js line 243):
`path.join(this.root, path.normalize(req.url))`. -/
def resolvePathName (root url : Str) : Str := joinJs root (normalizeJs url)

/-- `hasTrailingSlash` (src/server.js line 10):
`url[url.length - 1] === '/'` (false on the empty string, where the
indexing yields `undefined`). -/
def hasTrailingSlash (u : Str) : Bool := u.getLast? == some '/'

/-- `url.parse(req.url).pathname` for an origin-form request target: the
path part of the URL, up to the query or fragment delimiter. -/
def jsPathname (u : Str) : Str := u.takeWhile fun c => c ≠ '?' && c ≠ '#'

/-- The 404 body of `respondNotFound` (src/server.js lines 31-36). -/
def notFoundBody (reqUrl : Str) : Str :=
  "<h1>Not Found</h1><p>The requested URL ".data ++ reqUrl
    ++ " was not found on this server.</p>".data

/-- The 301 body of `respondRedirect` (src/server.js lines 181-188). -/
def redirectBody (location : Str) : Str :=
  "Redirecting to <a href='".data ++ location ++ "'>".data ++ location ++ "</a>".data

/-- Outcome of `respondDirectory` (src/server.js lines 191-217). -/
inductive DirResult where
  /-- The index page exists: delegate to `respond` on its path. -/
  | index (indexPath : Str)
  /-- `fs.readdir` failed: the callback runs `respondError(err, res)`,
  but `respondError` is a method and no plain binding of that name is in
  scope (and the call is also not followed by a `return`), so evaluating
  the identifier throws a `ReferenceError`; no status or body is ever
  written for this request. -/
  | threwRef
  /-- Directory listing: status 200 with the rendered HTML body. -/
  | listing (body : Str)
deriving DecidableEq, Repr

/-- One `<p><a ...>` line of the directory listing (the `forEach` body,
src/server.js lines 203-210): directories get a trailing slash via
`path.join(itemLink, '/')`. -/
def renderEntry (requestPath : Str) (f : Str × Bool) : Str :=
  let itemLink := joinJs requestPath f.1
  let itemLink := if f.2 then joinJs itemLink ['/'] else itemLink
  "<p><a href='".data ++ itemLink ++ "'>".data ++ f.1 ++ "</a></p>".data

/-- The listing body built by `respondDirectory`'s readdir callback. -/
def renderListing (requestPath : Str) (files : List (Str × Bool)) : Str :=
  "<h1>Index of ".data ++ requestPath ++ "</h1>".data
    ++ (files.map (renderEntry requestPath)).flatten

/-- `respondDirectory(pathName, req, res)` (src/server.js lines 191-217).
`indexExists` is the result of `fs.existsSync` on the joined index page
path; `readdirResult` the outcome of `fs.readdir`, each entry paired
with its `isDirectory()` flag from `fs.statSync`. -/
def respondDirectory (indexPage : Str) (indexExists : Bool)
    (readdirResult : Except Str (List (Str × Bool))) (pathName reqUrl : Str) :
    DirResult :=
  if indexExists then .index (joinJs pathName indexPage)
  else
    match readdirResult with
    | .error _ => .threwRef
    | .ok files => .listing (renderListing (jsPathname reqUrl) files)

/-- The status line actually written by a `DirResult` (the terminal
response of the directory flow; the index case delegates to `respond`
and writes no status itself; the thrown `ReferenceError` writes none). -/
def dirEmittedStatus : DirResult → Option Nat
  | .index _ => none
  | .threwRef => none
  | .listing _ => some 200

/-- The routing decision of `routeHandler` (src/server.js lines
219-239). -/
inductive RouteIntent where
  | notFound (status : Nat) (body : Str)
  | redirect (status : Nat) (location : Str) (body : Str)
  | directory (r : DirResult)
  | serveFile (pathName : Str)
deriving DecidableEq, Repr

/-- `routeHandler(pathName, req, res)` (src/server.js lines 219-239)
after `fs.stat` completes: 404 when stat failed; otherwise directory
handling / redirect / file pipeline exactly as in the source. -/
def routeHandler (indexPage : Str) (statResult : Option StatInfo) (indexExists : Bool)
    (readdirResult : Except Str (List (Str × Bool))) (reqUrl pathName : Str) :
    RouteIntent :=
  match statResult with
  | none => .notFound 404 (notFoundBody reqUrl)
  | some stat =>
    if hasTrailingSlash (jsPathname reqUrl) && stat.isDir then
      .directory (respondDirectory indexPage indexExists readdirResult pathName reqUrl)
    else if stat.isDir then
      .redirect 301 (reqUrl ++ ['/']) (redirectBody (reqUrl ++ ['/']))
    else
      .serveFile pathName

/-- An ordinary path segment: nonempty, not `.`, not `..`, slash-free.
(Hypothesis vocabulary for the path-containment theorem: the server root
`__dirname + config.root` is assumed to be a canonical absolute path,
i.e. `/` followed by such segments joined with `/`.) -/
def CleanSeg (s : Str) : Prop :=
  s ≠ [] ∧ s ≠ ['.'] ∧ s ≠ ['.', '.'] ∧ '/' ∉ s

instance (s : Str) : Decidable (CleanSeg s) := by
  unfold CleanSeg
  infer_instance

/-- The freshness predicate exactly as claim C1 words it (for comparison
with the code's `isFresh`): the request carries at least one of the two
conditional headers, and every one of those headers that is present is
string-equal to the corresponding computed header value. -/
def freshPerClaim (reqH : ReqHeaders) (resH : ResHeaders) : Bool :=
  (reqH.ifNoneMatch.isSome || reqH.ifModifiedSince.isSome)
  && (match reqH.ifNoneMatch with
      | none => true
      | some v => strictEqS v resH.etag)
  && (match reqH.ifModifiedSince with
      | none => true
      | some v => strictEqS v resH.lastModified)
lemma strictEqS_true_iff (v : Str) (o : Option Str) : strictEqS v o = true ↔ o = some v := by
  cases o with
  | none => simp [strictEqS]
  | some w =>
    simp only [strictEqS, beq_iff_eq, Option.some.injEq]
    exact eq_comm

lemma isFresh_eq_true_iff (reqH : ReqHeaders) (resH : ResHeaders) :
    isFresh reqH resH = true ↔
      ((jsTruthy reqH.ifNoneMatch = true ∨ jsTruthy reqH.ifModifiedSince = true)
       ∧ (∀ v, reqH.ifNoneMatch = some v → v ≠ [] → resH.etag = some v)
       ∧ (∀ v, reqH.ifModifiedSince = some v → v ≠ [] → resH.lastModified = some v)) := by
  obtain ⟨inm, ims, rg, ae⟩ := reqH
  unfold isFresh
  cases inm with
  | none =>
    cases ims with
    | none => simp [jsTruthy]
    | some w => cases w <;> simp [jsTruthy, strictEqS_true_iff]
  | some v =>
    cases v with
    | nil =>
      cases ims with
      | none => simp [jsTruthy]
      | some w => cases w <;> simp [jsTruthy, strictEqS_true_iff]
    | cons b bs =>
      cases ims with
      | none => simp [jsTruthy, strictEqS_true_iff]
      | some w => cases w <;> simp [jsTruthy, strictEqS_true_iff]

/-- C1 (amended): for a request to an existing file, the response is the
terminal 304 (`responseNotModified`) with the computed caching headers
already staged if and only if the request carries at least one of
If-None-Match / If-Modified-Since with a NON-EMPTY value and every one of
those headers that is present with a non-empty value is string-equal to
the computed ETag / Last-Modified value respectively (a header present
with the empty string is falsy in JS and behaves as absent); in
particular a request with neither conditional header proceeds to content
streaming (`responseFile`). -/
theorem respond_notModified_iff_nonempty_validators_match (cfg : Config) (stat : StatInfo) (now : Int) (mimeOf : Str → Str)
    (content : List Nat) (pathName : Str) (reqH : ReqHeaders) :
    (respond cfg mimeOf (some stat) content pathName now reqH
        = .notModified (setFreshHeaders cfg stat now)
      ↔ ((jsTruthy reqH.ifNoneMatch = true ∨ jsTruthy reqH.ifModifiedSince = true)
         ∧ (∀ v, reqH.ifNoneMatch = some v → v ≠ [] →
              (setFreshHeaders cfg stat now).etag = some v)
         ∧ (∀ v, reqH.ifModifiedSince = some v → v ≠ [] →
              (setFreshHeaders cfg stat now).lastModified = some v)))
    ∧ (reqH.ifNoneMatch = none → reqH.ifModifiedSince = none →
        respond cfg mimeOf (some stat) content pathName now reqH
          = .served (setFreshHeaders cfg stat now)
              (responseFile mimeOf stat content pathName reqH)) := by
  constructor
  · rw [← isFresh_eq_true_iff reqH (setFreshHeaders cfg stat now)]
    unfold respond
    by_cases hf : isFresh reqH (setFreshHeaders cfg stat now) = true
    · simp [hf]
    · simp [hf]
  · intro h1 h2
    have hff : isFresh reqH (setFreshHeaders cfg stat now) = false := by
      unfold isFresh
      simp [h1, h2, jsTruthy]
    unfold respond
    simp [hff]

/-- C2 (amended): for every parsed numeric range `{start, end}` and a file
of size S, the range handler emits 416 with empty body, header
`Content-Range: bytes */S` and no stream exactly when
start > S or end > S or start > end; otherwise it emits 206 with header
`Content-Range: bytes start-end/S` and — provided 0 ≤ start — opens a
stream whose bytes are exactly the file's bytes start..end whenever
end ≤ S-1 (the stream is clamped at EOF, and a negative start makes the
stream constructor throw instead of streaming; see the counterexample). -/
theorem rangeHandler_416_206_characterization (a b : Int) (content : List Nat) :
    (a > (content.length : Int) ∨ b > (content.length : Int) ∨ a > b →
        checkRange ⟨some a, some b⟩ (content.length : Int)
          = ⟨416, "bytes */".data ++ intStr (content.length : Int), none⟩)
    ∧ (¬(a > (content.length : Int) ∨ b > (content.length : Int) ∨ a > b) →
        checkRange ⟨some a, some b⟩ (content.length : Int)
            = ⟨206, "bytes ".data ++ intStr a ++ "-".data ++ intStr b ++ "/".data
                  ++ intStr (content.length : Int), some (some a, some b)⟩
          ∧ (0 ≤ a →
              ∃ bytes, createReadStreamOpts content (some a, some b) = .ok bytes
                ∧ (b ≤ (content.length : Int) - 1 →
                    bytes.length = (b - a + 1).toNat
                    ∧ ∀ i : Nat, (i : Int) < b - a + 1 →
                        bytes[i]? = content[a.toNat + i]?))) := by
  constructor
  · intro h
    have hc : (jsGt (some a) (some (content.length : Int))
        || jsGt (some b) (some (content.length : Int))
        || jsGt (some a) (some b)) = true := by
      simp only [jsGt, Bool.or_eq_true, decide_eq_true_eq]
      tauto
    simp [checkRange, hc]
  · intro h
    push_neg at h
    obtain ⟨haS, hbS, hab⟩ := h
    have hc : (jsGt (some a) (some (content.length : Int))
        || jsGt (some b) (some (content.length : Int))
        || jsGt (some a) (some b)) = false := by
      simp only [jsGt, Bool.or_eq_false_iff, decide_eq_false_iff_not]
      constructor
      · constructor <;> omega
      · omega
    constructor
    · simp [checkRange, hc, numStr, intStr]
    · intro ha
      have hb : (0 : Int) ≤ b := le_trans ha hab
      have hneg : (decide (a < 0) || decide (b < 0)) = false := by
        simp only [Bool.or_eq_false_iff, decide_eq_false_iff_not]
        omega
      refine ⟨(content.take (b.toNat + 1)).drop a.toNat, ?_, ?_⟩
      · simp only [createReadStreamOpts, hneg, Bool.false_eq_true, if_false]
      · intro hbe
        constructor
        · simp only [List.length_drop, List.length_take]
          omega
        · intro i hi
          rw [List.getElem?_drop]
          rw [List.getElem?_take_of_lt]
          omega

lemma takeWhile_all_eq_self {p : Char → Bool} {d : Str} (h : ∀ c ∈ d, p c = true) :
    d.takeWhile p = d :=
  List.takeWhile_eq_self_iff.mpr h

lemma matchBytesAt_suffix (d : Str) :
    matchBytesAt ('b' :: 'y' :: 't' :: 'e' :: 's' :: '=' :: '-' :: d)
      = some ([], d.takeWhile Char.isDigit) := rfl

lemma findBytesMatch_suffix (d : Str) :
    findBytesMatch ("bytes=-".data ++ d) = some ([], d.takeWhile Char.isDigit) := by
  show findBytesMatch ('b' :: 'y' :: 't' :: 'e' :: 's' :: '=' :: '-' :: d)
      = some ([], d.takeWhile Char.isDigit)
  rw [findBytesMatch, matchBytesAt_suffix]
  rfl

lemma getRange_suffix (S : Int) (d : Str) (h0 : d ≠ [])
    (hd : ∀ c ∈ d, c.isDigit = true) :
    getRange ("bytes=-".data ++ d) S
      = .ok ⟨some (S - (digitsVal d : Int)), some (S - 1)⟩ := by
  unfold getRange
  rw [findBytesMatch_suffix, takeWhile_all_eq_self hd]
  have h2 : parseIntJs d = some (digitsVal d : Int) := by
    simp [parseIntJs, h0]
  show (match parseIntJs [], parseIntJs d with
    | none, some e => Except.ok (⟨some (S - e), some (S - 1)⟩ : JsRange)
    | some s, none => Except.ok ⟨some s, some (S - 1)⟩
    | s, e => Except.ok ⟨s, e⟩)
      = Except.ok ⟨some (S - (digitsVal d : Int)), some (S - 1)⟩
  rw [h2]
  rfl

lemma matchBytesAt_open (d : Str) (hd : ∀ c ∈ d, Char.isDigit c = true) :
    matchBytesAt ('b' :: 'y' :: 't' :: 'e' :: 's' :: '=' :: (d ++ ['-'])) = some (d, []) := by
  have hpre : "bytes=".data.isPrefixOf
      ('b' :: 'y' :: 't' :: 'e' :: 's' :: '=' :: (d ++ ['-'])) = true := by
    rw [List.isPrefixOf_iff_prefix]
    exact ⟨d ++ ['-'], rfl⟩
  unfold matchBytesAt
  rw [if_pos hpre]
  show (match (d ++ ['-']).dropWhile Char.isDigit with
    | '-' :: r2 => some ((d ++ ['-']).takeWhile Char.isDigit, r2.takeWhile Char.isDigit)
    | _ => none) = some (d, [])
  rw [List.dropWhile_append_of_pos hd, List.takeWhile_append_of_pos hd]
  simp

lemma findBytesMatch_open (d : Str) (hd : ∀ c ∈ d, Char.isDigit c = true) :
    findBytesMatch ("bytes=".data ++ d ++ "-".data) = some (d, []) := by
  show findBytesMatch ('b' :: 'y' :: 't' :: 'e' :: 's' :: '=' :: (d ++ ['-'])) = some (d, [])
  rw [findBytesMatch, matchBytesAt_open d hd]
  rfl

/-- C5: for every Range header `bytes=-N` (start omitted, end a digit
string N) against total size S, `getRange` produces
start = S - N and end = S - 1; for `bytes=a-` (end omitted) it produces
start = a and end = S - 1; and for 1 ≤ N ≤ S the resulting suffix stream
is exactly the last N bytes of the file. -/
theorem getRange_suffix_and_open_forms (S : Int) (dN dA : Str)
    (hN : dN ≠ []) (hNd : ∀ c ∈ dN, c.isDigit = true)
    (hA : dA ≠ []) (hAd : ∀ c ∈ dA, c.isDigit = true) :
    getRange ("bytes=-".data ++ dN) S
        = .ok ⟨some (S - (digitsVal dN : Int)), some (S - 1)⟩
    ∧ getRange ("bytes=".data ++ dA ++ "-".data) S
        = .ok ⟨some (digitsVal dA : Int), some (S - 1)⟩
    ∧ (∀ content : List Nat, (content.length : Int) = S →
        1 ≤ (digitsVal dN : Int) → (digitsVal dN : Int) ≤ S →
        createReadStreamOpts content (some (S - (digitsVal dN : Int)), some (S - 1))
            = .ok (content.drop (S - (digitsVal dN : Int)).toNat)
          ∧ (content.drop (S - (digitsVal dN : Int)).toNat).length = digitsVal dN) := by
  refine ⟨getRange_suffix S dN hN hNd, ?_, ?_⟩
  · unfold getRange
    rw [findBytesMatch_open dA hAd]
    have h2 : parseIntJs dA = some (digitsVal dA : Int) := by
      simp [parseIntJs, hA]
    show (match parseIntJs dA, parseIntJs [] with
      | none, some e => Except.ok (⟨some (S - e), some (S - 1)⟩ : JsRange)
      | some s, none => Except.ok ⟨some s, some (S - 1)⟩
      | s, e => Except.ok ⟨s, e⟩)
        = Except.ok ⟨some (digitsVal dA : Int), some (S - 1)⟩
    rw [h2]
    rfl
  · intro content hS h1 h2
    have hc : (decide (S - (digitsVal dN : Int) < 0) || decide (S - 1 < 0)) = false := by
      simp only [Bool.or_eq_false_iff, decide_eq_false_iff_not]
      omega
    constructor
    · simp only [createReadStreamOpts, hc, Bool.false_eq_true, if_false]
      have ht : (S - 1).toNat + 1 = content.length := by omega
      rw [ht, List.take_length]
    · rw [List.length_drop]
      omega

/-- C4 (amended): every range parsed from a Range header that passes
validation and is served as 206 satisfies start ≤ S, end ≤ S and
start ≤ end on its numeric components; the stronger claimed invariant
0 ≤ start and end ≤ S-1 fails (see the counterexample). -/
theorem accepted_range_bounds (rangeText : Str) (S : Int) (r : JsRange)
    (hp : getRange rangeText S = .ok r)
    (hacc : (checkRange r S).statusCode = 206) :
    (∀ a, r.start = some a → a ≤ S)
    ∧ (∀ b, r.end_ = some b → b ≤ S)
    ∧ (∀ a b, r.start = some a → r.end_ = some b → a ≤ b) := by
  have hcond : (jsGt r.start (some S) || jsGt r.end_ (some S)
      || jsGt r.start r.end_) = false := by
    cases hgc : (jsGt r.start (some S) || jsGt r.end_ (some S) || jsGt r.start r.end_) with
    | false => rfl
    | true =>
      exfalso
      unfold checkRange at hacc
      rw [if_pos hgc] at hacc
      simp at hacc
  simp only [Bool.or_eq_false_iff] at hcond
  obtain ⟨⟨h1, h2⟩, h3⟩ := hcond
  refine ⟨?_, ?_, ?_⟩
  · intro a ha
    rw [ha] at h1
    simp only [jsGt, decide_eq_false_iff_not] at h1
    omega
  · intro b hb
    rw [hb] at h2
    simp only [jsGt, decide_eq_false_iff_not] at h2
    omega
  · intro a b ha hb
    rw [ha, hb] at h3
    simp only [jsGt, decide_eq_false_iff_not] at h3
    omega

/-- C7: compression negotiation: absent Accept-Encoding, or a value with
neither a gzip nor a deflate word-token, passes the stream through with
no Content-Encoding; a gzip token (even alongside deflate) yields the
gzip transform and `Content-Encoding: gzip`; only a deflate token yields
the deflate transform and `Content-Encoding: deflate`. -/
theorem compressHandler_negotiation (s : RStream) :
    compressHandler s none = some (s, none)
    ∧ (∀ h : Str, hasWordToken "gzip".data h = false →
        hasWordToken "deflate".data h = false →
        compressHandler s (some h) = some (s, none))
    ∧ (∀ h : Str, hasWordToken "gzip".data h = true →
        compressHandler s (some h) = some (⟨s.bytes, .gzip⟩, some "gzip".data))
    ∧ (∀ h : Str, hasWordToken "gzip".data h = false →
        hasWordToken "deflate".data h = true →
        compressHandler s (some h) = some (⟨s.bytes, .deflate⟩, some "deflate".data)) := by
  refine ⟨rfl, ?_, ?_, ?_⟩
  · intro h hg hd
    simp [compressHandler, hg, hd]
  · intro h hg
    have hne : h ≠ [] := by
      intro he
      rw [he] at hg
      exact absurd hg (by decide)
    simp [compressHandler, hg, jsTruthy, hne]
  · intro h hg hd
    have hne : h ≠ [] := by
      intro he
      rw [he] at hd
      exact absurd hd (by decide)
    simp [compressHandler, hg, hd, jsTruthy, hne]

/-- C6: the router classifies every request into exactly one case:
stat failure is a 404 whose body names the requested URL; a directory
without trailing slash on the URL path is a 301 whose Location is the
request URL plus "/"; a directory with trailing slash goes to directory
handling (the index page when it exists, else the listing, and the
thrown ReferenceError branch when readdir fails); a file goes to the
freshness/range pipeline. -/
theorem routeHandler_classification (indexPage : Str) (statResult : Option StatInfo) (indexExists : Bool)
    (rd : Except Str (List (Str × Bool))) (reqUrl pathName : Str) :
    (statResult = none →
        routeHandler indexPage statResult indexExists rd reqUrl pathName
            = .notFound 404 (notFoundBody reqUrl)
          ∧ reqUrl <:+: notFoundBody reqUrl)
    ∧ (∀ st, statResult = some st → st.isDir = true →
        hasTrailingSlash (jsPathname reqUrl) = false →
        routeHandler indexPage statResult indexExists rd reqUrl pathName
          = .redirect 301 (reqUrl ++ ['/']) (redirectBody (reqUrl ++ ['/'])))
    ∧ (∀ st, statResult = some st → st.isDir = true →
        hasTrailingSlash (jsPathname reqUrl) = true →
        (indexExists = true →
            routeHandler indexPage statResult indexExists rd reqUrl pathName
              = .directory (.index (joinJs pathName indexPage)))
          ∧ (indexExists = false → ∀ files, rd = .ok files →
              routeHandler indexPage statResult indexExists rd reqUrl pathName
                = .directory (.listing (renderListing (jsPathname reqUrl) files)))
          ∧ (indexExists = false → ∀ e, rd = .error e →
              routeHandler indexPage statResult indexExists rd reqUrl pathName
                = .directory .threwRef))
    ∧ (∀ st, statResult = some st → st.isDir = false →
        routeHandler indexPage statResult indexExists rd reqUrl pathName
          = .serveFile pathName) := by
  refine ⟨?_, ?_, ?_, ?_⟩
  · rintro rfl
    refine ⟨rfl, ?_⟩
    exact ⟨"<h1>Not Found</h1><p>The requested URL ".data,
      " was not found on this server.</p>".data, rfl⟩
  · rintro st rfl hdir htr
    simp [routeHandler, htr, hdir]
  · rintro st rfl hdir htr
    refine ⟨?_, ?_, ?_⟩
    · rintro rfl
      simp [routeHandler, htr, hdir, respondDirectory]
    · rintro rfl files rfl
      simp [routeHandler, htr, hdir, respondDirectory]
    · rintro rfl e rfl
      simp [routeHandler, htr, hdir, respondDirectory]
  · rintro st rfl hdir
    simp [routeHandler, hdir]

lemma splitSlash_nil : splitSlash [] = [[]] := rfl

lemma splitSlash_cons (c : Char) (r : Str) :
    splitSlash (c :: r) =
      if c = '/' then [] :: splitSlash r
      else
        match splitSlash r with
        | s :: ss => (c :: s) :: ss
        | [] => [[c]] := rfl

lemma splitSlash_ne_nil (p : Str) : splitSlash p ≠ [] := by
  cases p with
  | nil => simp [splitSlash_nil]
  | cons c r =>
    rw [splitSlash_cons]
    by_cases hc : c = '/'
    · simp [hc]
    · rw [if_neg hc]
      cases h : splitSlash r <;> simp

lemma splitSlash_append_sep (a b : Str) :
    splitSlash (a ++ '/' :: b) = splitSlash a ++ splitSlash b := by
  induction a with
  | nil =>
    show splitSlash ('/' :: b) = splitSlash [] ++ splitSlash b
    rw [splitSlash_cons, if_pos rfl, splitSlash_nil]
    rfl
  | cons c a ih =>
    show splitSlash (c :: (a ++ '/' :: b)) = splitSlash (c :: a) ++ splitSlash b
    rw [splitSlash_cons, splitSlash_cons]
    by_cases hc : c = '/'
    · rw [if_pos hc, if_pos hc, ih]
      simp
    · rw [if_neg hc, if_neg hc, ih]
      cases hsp : splitSlash a with
      | nil => exact absurd hsp (splitSlash_ne_nil a)
      | cons s0 ss0 => simp

lemma splitSlash_slashFree (s : Str) (h : '/' ∉ s) : splitSlash s = [s] := by
  induction s with
  | nil => rfl
  | cons c r ih =>
    have hc : c ≠ '/' := by
      intro he
      exact h (by rw [he]; exact List.mem_cons_self _ _)
    rw [splitSlash_cons, if_neg hc, ih (fun hm => h (List.mem_cons_of_mem _ hm))]

lemma splitSlash_interS (rs : List Str) (h0 : rs ≠ [])
    (h : ∀ s ∈ rs, '/' ∉ s) : splitSlash (interS rs) = rs := by
  induction rs with
  | nil => exact absurd rfl h0
  | cons s rest ih =>
    cases rest with
    | nil =>
      show splitSlash (interS [s]) = [s]
      exact splitSlash_slashFree s (h s (List.mem_cons_self _ _))
    | cons t ts =>
      show splitSlash (s ++ '/' :: interS (t :: ts)) = s :: t :: ts
      rw [splitSlash_append_sep, splitSlash_slashFree s (h s (List.mem_cons_self _ _))]
      rw [ih (by simp) (fun x hx => h x (List.mem_cons_of_mem _ hx))]
      simp

lemma interS_append (a b : List Str) (ha : a ≠ []) (hb : b ≠ []) :
    interS (a ++ b) = interS a ++ '/' :: interS b := by
  induction a with
  | nil => exact absurd rfl ha
  | cons s rest ih =>
    cases rest with
    | nil =>
      cases b with
      | nil => exact absurd rfl hb
      | cons t ts => rfl
    | cons t ts =>
      show interS (s :: ((t :: ts) ++ b)) = (s ++ '/' :: interS (t :: ts)) ++ '/' :: interS b
      have h1 : interS (s :: ((t :: ts) ++ b)) = s ++ '/' :: interS ((t :: ts) ++ b) := rfl
      rw [h1, ih (by simp)]
      simp

lemma interS_eq_nil (l : List Str) (h : ∀ s ∈ l, s ≠ []) (he : interS l = []) :
    l = [] := by
  cases l with
  | nil => rfl
  | cons s rest =>
    cases rest with
    | nil => exact absurd he (h s (List.mem_cons_self _ _))
    | cons t ts =>
      exfalso
      have h1 : interS (s :: t :: ts) = s ++ '/' :: interS (t :: ts) := rfl
      rw [h1] at he
      rcases List.append_eq_nil.mp he with ⟨_, h2⟩
      exact absurd h2 (by simp)

lemma resolveRev_cons (al : Bool) (st : List Str) (s : Str) (rest : List Str) :
    resolveRev al st (s :: rest) =
      if s.isEmpty || s == ['.'] then resolveRev al st rest
      else if s == ['.', '.'] then
        match st with
        | t :: ts =>
          if t == ['.', '.'] then resolveRev al (s :: t :: ts) rest
          else resolveRev al ts rest
        | [] => if al then resolveRev al [s] rest else resolveRev al [] rest
      else resolveRev al (s :: st) rest := rfl

lemma resolveRev_append (al : Bool) (x y st : List Str) :
    resolveRev al st (x ++ y) = resolveRev al (resolveRev al st x) y := by
  induction x generalizing st with
  | nil => rfl
  | cons s rest ih =>
    rw [List.cons_append, resolveRev_cons, resolveRev_cons]
    repeat' split
    all_goals exact ih _

lemma resolveRev_cleanOrEmpty (al : Bool) (l : List Str) (st : List Str)
    (h : ∀ s ∈ l, CleanSeg s ∨ s = []) :
    resolveRev al st l = (l.filter (fun s => !s.isEmpty)).reverse ++ st := by
  induction l generalizing st with
  | nil => simp [resolveRev]
  | cons s rest ih =>
    rcases h s (List.mem_cons_self _ _) with hs | hs
    · obtain ⟨h1, h2, h3, _⟩ := hs
      have e1 : s.isEmpty = false := by simp [List.isEmpty_iff, h1]
      have e2 : (s == ['.']) = false := beq_eq_false_iff_ne.mpr h2
      have e3 : (s == ['.', '.']) = false := beq_eq_false_iff_ne.mpr h3
      rw [resolveRev_cons, e1, e2, e3]
      simp only [Bool.or_self, Bool.false_eq_true, if_false]
      rw [ih (s :: st) (fun x hx => h x (List.mem_cons_of_mem _ hx))]
      rw [List.filter_cons_of_pos (by simp [e1])]
      simp
    · subst hs
      rw [resolveRev_cons]
      simp only [List.isEmpty_nil, Bool.true_or, if_true]
      rw [ih st (fun x hx => h x (List.mem_cons_of_mem _ hx))]
      rw [List.filter_cons_of_neg (by simp)]

lemma resolveRev_output_clean (l : List Str) (st : List Str)
    (hst : ∀ s ∈ st, CleanSeg s) (hl : ∀ s ∈ l, '/' ∉ s) :
    ∀ s ∈ resolveRev false st l, CleanSeg s := by
  induction l generalizing st with
  | nil => exact hst
  | cons s rest ih =>
    rw [resolveRev_cons]
    have hrest : ∀ x ∈ rest, '/' ∉ x := fun x hx => hl x (List.mem_cons_of_mem _ hx)
    split
    · exact ih st hst hrest
    · rename_i hcond
      split
      · cases st with
        | nil =>
          dsimp only
          have hred : (if false = true then resolveRev false [s] rest
              else resolveRev false [] rest) = resolveRev false [] rest := by simp
          rw [hred]
          exact ih [] (by simp) hrest
        | cons t ts =>
          dsimp only
          have htne : (t == ['.', '.']) = false :=
            beq_eq_false_iff_ne.mpr (hst t (List.mem_cons_self _ _)).2.2.1
          rw [htne]
          have hred : (if false = true then resolveRev false (s :: t :: ts) rest
              else resolveRev false ts rest) = resolveRev false ts rest := by simp
          rw [hred]
          exact ih ts (fun x hx => hst x (List.mem_cons_of_mem _ hx)) hrest
      · rename_i hdd
        have h1 : s ≠ [] := by
          intro he
          rw [he] at hcond
          simp at hcond
        have h2 : s ≠ ['.'] := by
          intro he
          rw [he] at hcond
          simp at hcond
        have h3 : s ≠ ['.', '.'] := by
          intro he
          rw [he] at hdd
          simp at hdd
        exact ih (s :: st)
          (fun x hx => by
            rcases List.mem_cons.mp hx with h | h
            · subst h
              exact ⟨h1, h2, h3, hl x (List.mem_cons_self _ _)⟩
            · exact hst x h)
          hrest

lemma splitSlash_no_slash (p : Str) : ∀ s ∈ splitSlash p, '/' ∉ s := by
  induction p with
  | nil =>
    intro s hs
    rw [splitSlash_nil] at hs
    rcases List.mem_singleton.mp hs with rfl
    simp
  | cons c r ih =>
    rw [splitSlash_cons]
    by_cases hc : c = '/'
    · rw [if_pos hc]
      intro s hs
      rcases List.mem_cons.mp hs with h | h
      · subst h; simp
      · exact ih s h
    · rw [if_neg hc]
      cases hsp : splitSlash r with
      | nil => exact absurd hsp (splitSlash_ne_nil r)
      | cons s0 ss0 =>
        intro s hs
        rcases List.mem_cons.mp hs with h | h
        · subst h
          intro hm
          rcases List.mem_cons.mp hm with h' | h'
          · exact hc h'.symm
          · exact ih s0 (hsp ▸ List.mem_cons_self _ _) h'
        · exact ih s (hsp ▸ List.mem_cons_of_mem _ h)

lemma normalizeJs_cons_slash (u : Str) :
    normalizeJs ('/' :: u) =
      if (interS ((resolveRev false [] (splitSlash ('/' :: u))).reverse)).isEmpty then ['/']
      else ('/' :: interS ((resolveRev false [] (splitSlash ('/' :: u))).reverse))
        ++ (if ('/' :: u).getLast? == some '/' then ['/'] else []) := by
  unfold normalizeJs
  simp only [List.isEmpty_cons, Bool.false_eq_true, if_false, List.head?_cons,
    beq_self_eq_true, Bool.not_true, if_true, ite_true]

lemma normalizeJs_abs_shape (url : Str) (hurl : url.head? = some '/') :
    ∃ us, (∀ s ∈ us, CleanSeg s)
      ∧ (normalizeJs url = '/' :: interS us
         ∨ (us ≠ [] ∧ normalizeJs url = '/' :: (interS us ++ ['/']))) := by
  obtain ⟨u, rfl⟩ : ∃ u, url = '/' :: u := by
    cases url with
    | nil => cases hurl
    | cons c u =>
      have hc : c = '/' := by simpa using hurl
      exact ⟨u, by rw [hc]⟩
  refine ⟨(resolveRev false [] (splitSlash ('/' :: u))).reverse, ?_, ?_⟩
  · intro s hs
    exact resolveRev_output_clean (splitSlash ('/' :: u)) [] (by simp)
      (splitSlash_no_slash _) s (List.mem_reverse.mp hs)
  · rw [normalizeJs_cons_slash]
    by_cases hb : (interS ((resolveRev false [] (splitSlash ('/' :: u))).reverse)).isEmpty = true
    · left
      rw [if_pos hb, List.isEmpty_iff.mp hb]
    · rw [if_neg hb]
      by_cases htr : (('/' :: u).getLast? == some '/') = true
      · right
        refine ⟨?_, ?_⟩
        · intro he
          rw [he] at hb
          exact hb rfl
        · rw [if_pos htr]
          simp
      · left
        rw [if_neg htr]
        simp

lemma piece_spec (l : List Str) (h : ∀ s ∈ l, CleanSeg s) :
    (splitSlash (interS l)).filter (fun s => !s.isEmpty) = l
    ∧ (∀ s ∈ splitSlash (interS l), CleanSeg s ∨ s = []) := by
  cases l with
  | nil =>
    constructor
    · rfl
    · intro s hs
      rw [show interS [] = [] from rfl, splitSlash_nil] at hs
      rcases List.mem_singleton.mp hs with rfl
      exact Or.inr rfl
  | cons t ts =>
    have hsp : splitSlash (interS (t :: ts)) = t :: ts :=
      splitSlash_interS _ (by simp) (fun s hs => (h s hs).2.2.2)
    rw [hsp]
    constructor
    · exact List.filter_eq_self.mpr (fun s hs => by simp [List.isEmpty_iff, (h s hs).1])
    · exact fun s hs => Or.inl (h s hs)

lemma pieceB_spec (us : List Str) (trail : Str) (hus : ∀ s ∈ us, CleanSeg s)
    (htrail : trail = [] ∨ (us ≠ [] ∧ trail = ['/'])) :
    (splitSlash (interS us ++ trail)).filter (fun s => !s.isEmpty) = us
    ∧ (∀ s ∈ splitSlash (interS us ++ trail), CleanSeg s ∨ s = []) := by
  rcases htrail with rfl | ⟨hne, rfl⟩
  · rw [List.append_nil]
    exact piece_spec us hus
  · have hstep : interS us ++ ['/'] = interS us ++ '/' :: [] := rfl
    rw [hstep, splitSlash_append_sep, splitSlash_nil]
    have hsp : splitSlash (interS us) = us :=
      splitSlash_interS _ hne (fun s hs => (hus s hs).2.2.2)
    rw [hsp]
    constructor
    · rw [List.filter_append]
      rw [List.filter_eq_self.mpr (fun s hs => by simp [List.isEmpty_iff, (hus s hs).1])]
      simp
    · intro s hs
      rcases List.mem_append.mp hs with h | h
      · exact Or.inl (hus s h)
      · rcases List.mem_singleton.mp h with rfl
        exact Or.inr rfl

/-- C9 (amended): for every request URL that begins with "/" (origin-form
request target), the filesystem path produced by
`path.join(root, path.normalize(req.url))` has the canonical absolute
root as a prefix — `..` segments in an absolute URL path are clamped at
the root by normalize.  (For a request target that does not begin with
"/" the path can escape the root; see the counterexample.) -/
theorem resolvePathName_contained_for_absolute_urls (rs : List Str) (url : Str)
    (hclean : ∀ s ∈ rs, CleanSeg s)
    (hurl : url.head? = some '/') :
    ('/' :: interS rs) <+: resolvePathName ('/' :: interS rs) url := by
  obtain ⟨us, hus, hshape⟩ := normalizeJs_abs_shape url hurl
  obtain ⟨trail, htrail, hnurl⟩ :
      ∃ trail, (trail = ([] : Str) ∨ (us ≠ [] ∧ trail = ['/']))
        ∧ normalizeJs url = '/' :: (interS us ++ trail) := by
    rcases hshape with h | ⟨hne, h⟩
    · exact ⟨[], Or.inl rfl, by rw [h]; simp⟩
    · exact ⟨['/'], Or.inr ⟨hne, rfl⟩, by rw [h]⟩
  unfold resolvePathName joinJs
  rw [hnurl]
  simp only [List.isEmpty_cons, Bool.false_and, Bool.false_eq_true, if_false]
  have hq : ('/' :: interS rs) ++ '/' :: ('/' :: (interS us ++ trail))
      = '/' :: (interS rs ++ '/' :: ('/' :: (interS us ++ trail))) := by simp
  rw [hq, normalizeJs_cons_slash]
  have hA := piece_spec rs hclean
  have hB := pieceB_spec us trail hus htrail
  have hsplitFull : splitSlash ('/' :: (interS rs ++ '/' :: ('/' :: (interS us ++ trail))))
      = [] :: (splitSlash (interS rs) ++ [] :: splitSlash (interS us ++ trail)) := by
    rw [splitSlash_cons, if_pos rfl, splitSlash_append_sep, splitSlash_cons, if_pos rfl]
  have hco : ∀ s ∈ ([] :: (splitSlash (interS rs) ++ [] :: splitSlash (interS us ++ trail))),
      CleanSeg s ∨ s = [] := by
    intro s hs
    rcases List.mem_cons.mp hs with rfl | hs
    · exact Or.inr rfl
    · rcases List.mem_append.mp hs with h | h
      · exact hA.2 s h
      · rcases List.mem_cons.mp h with rfl | h
        · exact Or.inr rfl
        · exact hB.2 s h
  have hfilter : (([] :: (splitSlash (interS rs) ++ [] :: splitSlash (interS us ++ trail))).filter
      (fun s => !s.isEmpty)) = rs ++ us := by
    rw [List.filter_cons_of_neg (by simp), List.filter_append,
      List.filter_cons_of_neg (by simp), hA.1, hB.1]
  have hres : resolveRev false []
      ([] :: (splitSlash (interS rs) ++ [] :: splitSlash (interS us ++ trail)))
      = (rs ++ us).reverse := by
    rw [resolveRev_cleanOrEmpty false _ [] hco, hfilter]
    simp
  rw [hsplitFull, hres, List.reverse_reverse]
  by_cases hb : (interS (rs ++ us)).isEmpty = true
  · rw [if_pos hb]
    have hnil : rs ++ us = [] := by
      apply interS_eq_nil _ _ (List.isEmpty_iff.mp hb)
      intro s hs
      rcases List.mem_append.mp hs with h | h
      · exact (hclean s h).1
      · exact (hus s h).1
    rcases List.append_eq_nil.mp hnil with ⟨hrs, _⟩
    rw [hrs]
    exact List.prefix_rfl
  · rw [if_neg hb]
    have hstep : ('/' :: interS (rs ++ us))
        ++ (if ('/' :: (interS rs ++ '/' :: ('/' :: (interS us ++ trail)))).getLast?
            == some '/' then ['/'] else [])
        = '/' :: (interS (rs ++ us)
            ++ (if ('/' :: (interS rs ++ '/' :: ('/' :: (interS us ++ trail)))).getLast?
                == some '/' then ['/'] else [])) := by simp
    rw [hstep, List.cons_prefix_cons]
    refine ⟨rfl, ?_⟩
    cases hu : us with
    | nil =>
      rw [hu] at *
      rw [List.append_nil]
      exact List.prefix_append _ _
    | cons u0 urest =>
      cases hr : rs with
      | nil => exact List.nil_prefix
      | cons r0 rrest =>
        rw [← hr, ← hu]
        rw [interS_append rs us (by rw [hr]; simp) (by rw [hu]; simp)]
        rw [List.append_assoc]
        exact List.prefix_append _ _

/-- C1 counterexample: with ETag and Last-Modified enabled, a request
carrying `If-None-Match` with the EMPTY value together with a matching
`If-Modified-Since` is answered 304 (`respond` returns the notModified
outcome) although the present If-None-Match header is not string-equal to
the computed ETag — the claim's iff fails because JS truthiness treats an
empty header value as absent (`freshPerClaim` is the claim's own wording). -/
theorem respond_notModified_empty_validator_counterexample :
    respond ⟨true, true, true, true, 60, "index.html".data⟩ mimeDefault
        (some ⟨5, 5, false⟩) [0, 1, 2, 3, 4] "/a.txt".data 0
        ⟨some [], some (toUTCString 5), none, none⟩
      = .notModified (setFreshHeaders ⟨true, true, true, true, 60, "index.html".data⟩
          ⟨5, 5, false⟩ 0)
    ∧ freshPerClaim ⟨some [], some (toUTCString 5), none, none⟩
        (setFreshHeaders ⟨true, true, true, true, 60, "index.html".data⟩ ⟨5, 5, false⟩ 0)
      = false := by decide

/-- C1 witness: a request with neither conditional header is not answered
304 and proceeds to content streaming. -/
theorem respond_notModified_iff_witness :
    respond ⟨true, true, true, true, 60, "index.html".data⟩ mimeDefault
        (some ⟨5, 5, false⟩) [0] "/a.txt".data 0 ⟨none, none, none, none⟩
      = .served (setFreshHeaders ⟨true, true, true, true, 60, "index.html".data⟩
          ⟨5, 5, false⟩ 0)
          (responseFile mimeDefault ⟨5, 5, false⟩ [0] "/a.txt".data
            ⟨none, none, none, none⟩) :=
  (respond_notModified_iff_nonempty_validators_match _ _ _ _ _ _ _).2 rfl rfl

/-- C2 counterexample: the suffix range `bytes=-15` against size 10 parses
to start = -5, end = 9; validation does not reject it (the decision is the
206 branch, not 416), yet nothing can be streamed: `fs.createReadStream`
throws on the negative start, so the claimed "emits 206 and streams
exactly the bytes start..end" is false for this parsed range. -/
theorem rangeHandler_negative_start_counterexample :
    getRange "bytes=-15".data 10 = .ok ⟨some (-5), some 9⟩
    ∧ checkRange ⟨some (-5), some 9⟩ 10
        = ⟨206, "bytes -5-9/10".data, some (some (-5), some 9)⟩
    ∧ createReadStreamOpts (List.replicate 10 7) (some (-5), some 9) = .error () := by decide

/-- C2 witness: an out-of-bounds literal range is answered with the 416
decision and no stream. -/
theorem rangeHandler_characterization_witness :
    checkRange ⟨some 20, some 5⟩ ((List.replicate 10 0).length : Int)
      = ⟨416, "bytes */".data ++ intStr ((List.replicate 10 0).length : Int), none⟩ :=
  (rangeHandler_416_206_characterization 20 5 (List.replicate 10 0)).1 (by decide)

/-- C3: the code evaluated at the failing inputs.  A Range header with
both sides omitted (`bytes=-`) parses to NaN offsets; every validation
comparison with NaN is false, so the handler takes the 206 branch with
`Content-Range: bytes NaN-NaN/10` instead of answering 416; a header not
matching the pattern at all (`units=0-5`) makes `getRange` throw an
uncaught TypeError (`matchResults` is null).  Neither is the claimed 416. -/
theorem rangeHandler_malformed_not_416 :
    rangeDecision "bytes=-".data 10
        = .ok ⟨206, "bytes NaN-NaN/10".data, some (none, none)⟩
    ∧ rangeDecision "units=0-5".data 10 = .error () := by decide

/-- C4 counterexample: `bytes=0-10` against size 10 parses to end = 10 and
passes validation (206), but 10 is not ≤ size - 1, refuting the claimed
invariant that accepted offsets lie within [0, S-1]. -/
theorem accepted_range_end_eq_size_counterexample :
    getRange "bytes=0-10".data 10 = .ok ⟨some 0, some 10⟩
    ∧ (checkRange ⟨some 0, some 10⟩ 10).statusCode = 206
    ∧ ¬((10 : Int) ≤ 10 - 1) := by decide

/-- C4 witness: the bounds instantiated for the accepted range
`bytes=0-5` at size 10. -/
theorem accepted_range_bounds_witness :
    (0 : Int) ≤ 10 ∧ (5 : Int) ≤ 10 ∧ (0 : Int) ≤ 5 := by
  have h := accepted_range_bounds "bytes=0-5".data 10 ⟨some 0, some 5⟩
    (by decide) (by decide)
  exact ⟨h.1 0 rfl, h.2.1 5 rfl, h.2.2 0 5 rfl rfl⟩

/-- C5 witness: `bytes=-15` at size 10 gives start = -5, end = 9, and
`bytes=0-` gives start = 0, end = 9. -/
theorem getRange_suffix_and_open_forms_witness :
    getRange "bytes=-15".data 10 = .ok ⟨some (-5), some 9⟩
    ∧ getRange "bytes=0-".data 10 = .ok ⟨some 0, some 9⟩ := by
  have h := getRange_suffix_and_open_forms 10 "15".data "0".data
    (by decide) (by decide) (by decide) (by decide)
  exact ⟨h.1, h.2.1⟩

/-- C6 witness: a directory hit whose URL path lacks the trailing slash is
redirected to the URL plus "/". -/
theorem routeHandler_classification_witness :
    routeHandler "index.html".data (some ⟨0, 0, true⟩) false (.ok []) "/docs".data
        "/root/docs".data
      = .redirect 301 ("/docs".data ++ ['/']) (redirectBody ("/docs".data ++ ['/'])) :=
  (routeHandler_classification "index.html".data (some ⟨0, 0, true⟩) false (.ok [])
    "/docs".data "/root/docs".data).2.1 ⟨0, 0, true⟩ rfl rfl (by decide)

/-- C7 witness: `Accept-Encoding: gzip, deflate` selects gzip. -/
theorem compressHandler_negotiation_witness :
    compressHandler ⟨[1, 2], .identity⟩ (some "gzip, deflate".data)
      = some (⟨[1, 2], .gzip⟩, some "gzip".data) :=
  (compressHandler_negotiation ⟨[1, 2], .identity⟩).2.2.1 "gzip, deflate".data (by decide)

/-- C8: the code evaluated at the failing input.  `this.zipMatch` is never
assigned, so `shouldCompress` tests the extension against `undefined`,
i.e. the empty pattern, which matches everything: compression is applied
to EVERY file, and a .jpg request with `Accept-Encoding: gzip` comes back
gzip-transformed with `Content-Encoding: gzip`, contradicting the claim
that non-configured extensions are served uncompressed. -/
theorem shouldCompress_always_true_and_compresses :
    (∀ p : Str, shouldCompress p = true)
    ∧ responseFile mimeDefault ⟨3, 0, false⟩ [1, 2, 3] "/img/photo.jpg".data
        ⟨none, none, none, some "gzip".data⟩
      = .ok ⟨200, "application/octet-stream".data, "bytes".data, none,
          some "gzip".data, [1, 2, 3], .gzip⟩ := by
  refine ⟨fun p => ?_, by decide⟩
  unfold shouldCompress
  cases extname p <;> rfl

/-- C9 counterexample: a request target that does not begin with "/"
escapes the root: `path.join("/srv/www", path.normalize("../a"))` is
"/srv/a", which does not have the root "/srv/www" as a prefix, refuting
the claim for arbitrary request URLs. -/
theorem resolvePathName_escape_counterexample :
    resolvePathName "/srv/www".data "../a".data = "/srv/a".data
    ∧ "/srv/www".data.isPrefixOf "/srv/a".data = false := by decide

/-- C9 witness: the traversal URL `/docs/../../../etc/passwd` stays under
the root `/srv/www`. -/
theorem resolvePathName_contained_witness :
    ('/' :: interS ["srv".data, "www".data])
      <+: resolvePathName ('/' :: interS ["srv".data, "www".data])
          "/docs/../../../etc/passwd".data :=
  resolvePathName_contained_for_absolute_urls ["srv".data, "www".data]
    "/docs/../../../etc/passwd".data (by decide) (by decide)

/-- C10: the code evaluated at the failing input.  When the directory was
confirmed, no index page exists and `fs.readdir` fails, the callback's
error branch evaluates the undeclared identifier `respondError` and
throws a ReferenceError: the outcome is `threwRef`, no status line — in
particular not the claimed single 500 — is ever written for the request. -/
theorem respondDirectory_readdir_error_no_response :
    respondDirectory "index.html".data false (.error "EACCES".data)
        "/srv/www/docs".data "/docs/".data = .threwRef
    ∧ dirEmittedStatus (respondDirectory "index.html".data false (.error "EACCES".data)
        "/srv/www/docs".data "/docs/".data) = none := by decide
